import Mathlib

/-!
Shallow embedding of the schema-driven load-test core (src/load_test.py and
src/settings.py): the per-field value generator of SchemaGenerator, its
construction-time state, the schema loader, the bounded key cache updates
performed by the task methods, and the fixed aggregation pipeline.

Randomness is modelled by explicit oracle draws: each call of Python's
random primitives is represented by a natural-number (or boolean) draw
supplied from outside, reduced into the primitive's documented range by a
modulus, so that every statement about ranges and structure is exact while
distributional facts are carried by the oracle.
-/

/-- Values a generated field can hold: Python int, str, datetime (modelled as
an integer timestamp), and None (the fall-through return of _gen_value). -/
inductive Value where
  | vInt : Int → Value
  | vStr : String → Value
  | vDate : Int → Value
  | vNone : Value
deriving DecidableEq, Repr

/-- Python exceptions that _gen_value can raise through dict / deque access:
KeyError from self._unique_counters[...] or self._unique_range_pools[...],
IndexError from pool[0] on an empty deque. -/
inductive PyErr where
  | keyError : PyErr
  | indexError : PyErr
deriving DecidableEq, Repr

/-- Mirrors class SchemaField (src/load_test.py lines 25-33).  `name` and
`ftype` are Options because _load_schema passes item.get('name') /
item.get('type'), which are None when the key is missing; `unique_range`
is an Option for the same reason. -/
structure SchemaField where
  name : Option String
  ftype : Option String
  allowed_values : Option (List Value)
  unique : Bool
  skewed : Bool
  unique_range : Option Int

/-- Python truthiness of an optional list (`if field.allowed_values:`):
true exactly when the value is present and non-empty. -/
def truthyList : Option (List Value) → Bool
  | some (_ :: _) => true
  | _ => false

/-- Python truthiness of an optional integer (`if field.unique_range:`):
true exactly when the value is present and non-zero. -/
def truthyInt : Option Int → Bool
  | some r => decide (r ≠ 0)
  | none => false

/-- Mutable state of a SchemaGenerator: the seed drawn at construction
(`self._seed`), the per-field unique counters (`self._unique_counters`) and
the per-field rotating pools (`self._unique_range_pools`).  The Python dicts
are modelled as functions from the (optional) field name; `none` as a result
models absence of the key. -/
structure GenState where
  seed : Nat
  counters : Option String → Option Nat
  pools : Option String → Option (List Int)

/-- Point update of a name-keyed map (Python dict assignment). -/
def updMap {β : Type} (m : Option String → β) (k : Option String) (v : β) :
    Option String → β :=
  fun q => if q = k then v else m q

/-- range(r) for a Python int r, as a list of Ints (empty when r ≤ 0). -/
def intRange (r : Int) : List Int :=
  (List.range r.toNat).map (fun (n : Nat) => (n : Int))

/-- deque.rotate(k) for k ≥ 0: right rotation, the last k elements (mod
length) move to the front. -/
def rotateRight {α : Type} (l : List α) (k : Nat) : List α :=
  l.drop (l.length - k % l.length) ++ l.take (l.length - k % l.length)

/-- One call's worth of random-oracle draws for _gen_value.  Each numeric
draw is reduced by a modulus at use, matching the documented range of the
Python primitive it stands for: random.choice index, random.random() < 0.8
outcome, randint(0, 9), randint(10, 10_000), randint(0, 10_000),
random.choices character indices, and the faker datetime. -/
structure Draws where
  choiceIdx : Nat
  skewFlip : Bool
  hotDraw : Nat
  coldDraw : Nat
  intDraw : Nat
  strDraws : Nat → Nat
  dateDraw : Int

/-- A fixed oracle, for concrete evaluations. -/
def defaultRand : Draws :=
  ⟨0, true, 0, 0, 0, fun _ => 0, 0⟩

/-- string.ascii_uppercase + string.digits. -/
def ALPHANUM : List Char :=
  "ABCDEFGHIJKLMNOPQRSTUVWXYZ0123456789".toList

/-- The 8-character alphanumeric token of the string branch
(random.choices(..., k=8) joined). -/
def randToken (draws : Nat → Nat) : String :=
  String.mk ((List.range 8).map (fun i => ALPHANUM.getD (draws i % 36) 'A'))

/-- random.choice(l) for a list known non-empty at the call site. -/
def pyChoice (l : List Value) (idx : Nat) : Value :=
  l.getD (idx % l.length) Value.vNone

/-- Mirrors SchemaGenerator._gen_value (src/load_test.py lines 81-112),
branch for branch: allowed_values first (Python truthiness), then the int
branch with unique / unique_range / skewed / default sub-branches, then
string, then date, and finally the fall-through `return None`. -/
def genValue (f : SchemaField) (st : GenState) (r : Draws) :
    Except PyErr (Value × GenState) :=
  if truthyList f.allowed_values then
    .ok (pyChoice (f.allowed_values.getD []) r.choiceIdx, st)
  else if f.ftype = some "int" then
    if f.unique then
      match st.counters f.name with
      | some c =>
        .ok (Value.vInt ((st.seed * 1000000 + (c + 1) : Nat) : Int),
          { st with counters := updMap st.counters f.name (some (c + 1)) })
      | none => .error PyErr.keyError
    else if truthyInt f.unique_range then
      match st.pools f.name with
      | some (x :: xs) =>
        .ok (Value.vInt x,
          { st with pools := updMap st.pools f.name (some (xs ++ [x])) })
      | some [] => .error PyErr.indexError
      | none => .error PyErr.keyError
    else if f.skewed then
      if r.skewFlip then .ok (Value.vInt ((r.hotDraw % 10 : Nat) : Int), st)
      else .ok (Value.vInt ((10 + r.coldDraw % 9991 : Nat) : Int), st)
    else .ok (Value.vInt ((r.intDraw % 10001 : Nat) : Int), st)
  else if f.ftype = some "string" then
    .ok (Value.vStr (randToken r.strDraws), st)
  else if f.ftype = some "date" then
    .ok (Value.vDate r.dateDraw, st)
  else
    .ok (Value.vNone, st)

/-- The per-field part of SchemaGenerator.__init__ (src/load_test.py lines
47-55): a counter entry 0 for unique fields, and for truthy unique_range a
pool deque(range(rng)) rotated right by seed mod rng. -/
def initFold (seed : Nat) (st : GenState) (f : SchemaField) : GenState :=
  let st1 :=
    if f.unique then
      { st with counters := updMap st.counters f.name (some 0) }
    else st
  if truthyInt f.unique_range then
    match f.unique_range with
    | some rng =>
      { st1 with
          pools := updMap st1.pools f.name
            (some (rotateRight (intRange rng) (seed % rng.toNat))) }
    | none => st1
  else st1

/-- SchemaGenerator.__init__'s generation state, with the seed (drawn in
Python by random.randint(1, 1_000_000_000)) supplied as an oracle. -/
def initState (spec : List SchemaField) (seed : Nat) : GenState :=
  spec.foldl (initFold seed) ⟨seed, fun _ => none, fun _ => none⟩

/-- Iterated _gen_value on one field, threading the generator state, with an
indexed oracle stream supplying each call's draws. -/
def genSeq (f : SchemaField) :
    GenState → (Nat → Draws) → Nat → Except PyErr (List Value × GenState)
  | st, _, 0 => .ok ([], st)
  | st, rs, n + 1 =>
    match genValue f st (rs 0) with
    | .error e => .error e
    | .ok (v, st1) =>
      match genSeq f st1 (fun i => rs (i + 1)) n with
      | .error e => .error e
      | .ok (vs, st2) => .ok (v :: vs, st2)

/-- The value component of one _gen_value call, for concrete observations. -/
def genVal1 (f : SchemaField) (st : GenState) (r : Draws) : Option Value :=
  (genValue f st r).toOption.map Prod.fst

/-- The field's counter entry after one _gen_value call. -/
def genCounterAfter (f : SchemaField) (st : GenState) (r : Draws) :
    Option (Option Nat) :=
  (genValue f st r).toOption.map (fun p => p.2.counters f.name)

/-- Strict order on generated values used to state monotonicity of unique
sequences: only int values are comparable. -/
def vLt : Value → Value → Prop
  | Value.vInt a, Value.vInt b => a < b
  | _, _ => False

/-- One raw schema-file descriptor as _load_schema sees it: each key of the
JSON object is optional (item.get returns None when missing). -/
structure RawField where
  name : Option String
  type : Option String
  allowed_values : Option (List Value)
  unique : Option Bool
  skewed : Option Bool
  unique_range : Option Int

/-- The per-item body of MongoSampleUser._load_schema (src/load_test.py
lines 138-148): every field is passed through unchecked; the booleans
default to False when the key is absent. -/
def loadField (item : RawField) : SchemaField :=
  ⟨item.name, item.type, item.allowed_values,
    item.unique.getD false, item.skewed.getD false, item.unique_range⟩

/-- MongoSampleUser._load_schema's loop over the parsed JSON list. -/
def loadSchema (raw : List RawField) : List SchemaField :=
  raw.map loadField

/-- IDS_TO_CACHE (src/load_test.py line 22). -/
def IDS_TO_CACHE : Nat := 1000

/-- The key-cache update of MongoSampleUser.insert_single_document
(src/load_test.py lines 200-205), given a present RECON_RECORD_ID: append
while below IDS_TO_CACHE; once full, overwrite the slot chosen by
randint(0, len-1) when the randint(0, 9) draw is 0, else leave unchanged.
The two randint draws are oracle numbers reduced by their moduli. -/
def record (cache : List Int) (key : Int) (d10 slot : Nat) : List Int :=
  if cache.length < IDS_TO_CACHE then cache ++ [key]
  else if d10 % 10 = 0 then cache.set (slot % cache.length) key
  else cache

/-- A sequence of record calls (key and the two draws per call). -/
def recordOps : List (Int × Nat × Nat) → List Int → List Int
  | [], cache => cache
  | (k, d, s) :: rest, cache => recordOps rest (record cache k d s)

/-- The key-cache update of MongoSampleUser.insert_documents_bulk
(src/load_test.py lines 223-226): for each generated document's optional
RECON_RECORD_ID, append only while the cache is below IDS_TO_CACHE; there
is no replacement branch in this path. -/
def bulkRecord : List (Option Int) → List Int → List Int
  | [], cache => cache
  | none :: rest, cache => bulkRecord rest cache
  | some r :: rest, cache =>
    bulkRecord rest (if cache.length < IDS_TO_CACHE then cache ++ [r] else cache)

/-- MongoSampleUser.find_document (src/load_test.py lines 210-217): the
filter value of the point lookup it issues, none when it returns without
querying because the cache is empty; random.choice over the cache is the
oracle draw r reduced modulo the length. -/
def find_document (cache : List Int) (r : Nat) : Option Int :=
  if cache.isEmpty then none
  else some (cache.getD (r % cache.length) 0)

/-- BSON-ish documents, to transcribe the aggregation pipeline stages. -/
inductive J where
  | s : String → J
  | i : Int → J
  | arr : List J → J
  | obj : List (String × J) → J

/-- pymongo.DESCENDING. -/
def DESCENDING : Int := -1

/-- The group stage of run_aggregation_pipeline (src/load_test.py 162-167). -/
def group_by : J :=
  J.obj [("$group", J.obj [("_id", J.s "$STATUS"),
    ("total_records", J.obj [("$sum", J.i 1)])])]

/-- The rename stage (line 169). -/
def set_columns : J :=
  J.obj [("$set", J.obj [("STATUS", J.s "$_id")])]

/-- The key-removal stage (line 170). -/
def unset_columns : J :=
  J.obj [("$unset", J.arr [J.s "_id"])]

/-- The sort stage (line 171). -/
def order_by : J :=
  J.obj [("$sort", J.obj [("total_records", J.i DESCENDING)])]

/-- The pipeline list of run_aggregation_pipeline (line 173). -/
def pipeline : List J :=
  [group_by, set_columns, unset_columns, order_by]

/-- Which collection handle an operation is issued against. -/
inductive AggTarget where
  | primary : AggTarget
  | secondary : AggTarget

/-- run_aggregation_pipeline issues `pipeline` against
self.collection_secondary (line 174): target and stages. -/
def runAggregationPipeline : AggTarget × List J :=
  (AggTarget.secondary, pipeline)

/-- Modelled from the spec (section 6, aggregation pipeline shape): a
four-stage pipeline that groups on an enumeration field counting
occurrences into a count key, renames the synthetic group key back to the
field name, removes the synthetic key, and sorts by the count descending. -/
def specAggPipeline (field countKey : String) : List J :=
  [ J.obj [("$group", J.obj [("_id", J.s (String.append "$" field)),
      (countKey, J.obj [("$sum", J.i 1)])])],
    J.obj [("$set", J.obj [(field, J.s "$_id")])],
    J.obj [("$unset", J.arr [J.s "_id"])],
    J.obj [("$sort", J.obj [(countKey, J.i (-1))])] ]

/-- Field spec used by concrete instantiations: a fresh unique int field. -/
def ufField : SchemaField :=
  ⟨some "ID", some "int", none, true, false, none⟩

/-- Field spec with an unrecognized type, for concrete instantiations. -/
def bfField : SchemaField :=
  ⟨some "X", some "bool", none, false, false, none⟩

/-- Field spec whose allowed_values is present but empty. -/
def eaField : SchemaField :=
  ⟨some "E", some "int", some [], false, false, none⟩

/-- Unique int field that also carries a non-empty allowed_values list. -/
def auField : SchemaField :=
  ⟨some "F", some "int", some [Value.vInt 7], true, false, none⟩

/-- Int field with both unique and unique_range set. -/
def urField : SchemaField :=
  ⟨some "F", some "int", none, true, false, some 3⟩

/-- String field with a non-empty allowed_values list. -/
def avField : SchemaField :=
  ⟨some "S", some "string", some [Value.vStr "A", Value.vStr "B"], false, false, none⟩

example : genVal1 ufField (initState [ufField] 3) defaultRand =
    some (Value.vInt 3000001) := by decide

example : find_document [5, 7] 3 = some 7 := by decide

example : record [] 5 0 0 = [5] := by decide

example : runAggregationPipeline =
    (AggTarget.secondary, specAggPipeline "STATUS" "total_records") := rfl

theorem record_length_le (cache : List Int) (key : Int) (d10 slot : Nat)
    (hc : cache.length ≤ IDS_TO_CACHE) :
    (record cache key d10 slot).length ≤ IDS_TO_CACHE := by
  unfold record
  split
  · simp only [List.length_append, List.length_cons, List.length_nil]
    omega
  · split
    · simpa [List.length_set] using hc
    · exact hc

theorem recordOps_length_le (ops : List (Int × Nat × Nat)) (cache : List Int)
    (hc : cache.length ≤ IDS_TO_CACHE) :
    (recordOps ops cache).length ≤ IDS_TO_CACHE := by
  induction ops generalizing cache with
  | nil => simpa [recordOps] using hc
  | cons op rest ih =>
    obtain ⟨k, d, s⟩ := op
    exact ih (record cache k d s) (record_length_le cache k d s hc)

/-- Claim C3: the key cache never exceeds 1000 entries: record appends the
new key while the cache holds fewer than 1000 entries; once it holds 1000,
every record keeps the length exactly 1000, overwriting the randomly drawn
slot when the 1-in-10 draw hits and otherwise leaving the cache unchanged.
The probabilistic choices are carried by the oracle draws d10 and slot. -/
theorem claim3_key_cache_bounded (cache : List Int) (key : Int) (d10 slot : Nat)
    (ops : List (Int × Nat × Nat)) (hc : cache.length ≤ IDS_TO_CACHE) :
    (record cache key d10 slot).length ≤ IDS_TO_CACHE
  ∧ (recordOps ops cache).length ≤ IDS_TO_CACHE
  ∧ (cache.length < IDS_TO_CACHE → record cache key d10 slot = cache ++ [key])
  ∧ (cache.length = IDS_TO_CACHE → (record cache key d10 slot).length = IDS_TO_CACHE)
  ∧ (cache.length = IDS_TO_CACHE → d10 % 10 = 0 →
      record cache key d10 slot = cache.set (slot % cache.length) key)
  ∧ (cache.length = IDS_TO_CACHE → ¬ d10 % 10 = 0 →
      record cache key d10 slot = cache) := by
  refine ⟨record_length_le cache key d10 slot hc, recordOps_length_le ops cache hc,
    ?_, ?_, ?_, ?_⟩
  · intro h
    simp [record, h]
  · intro h
    have hnlt : ¬ cache.length < IDS_TO_CACHE := by omega
    unfold record
    rw [if_neg hnlt]
    split
    · simpa [List.length_set] using h
    · exact h
  · intro h hd
    have hnlt : ¬ cache.length < IDS_TO_CACHE := by omega
    simp [record, hnlt, hd]
  · intro h hd
    have hnlt : ¬ cache.length < IDS_TO_CACHE := by omega
    simp [record, hnlt, hd]

theorem claim3_key_cache_bounded_witness :
    ([] : List Int).length ≤ IDS_TO_CACHE
  ∧ ((record [] 5 1 2).length ≤ IDS_TO_CACHE
  ∧ (recordOps [(7, 0, 0)] []).length ≤ IDS_TO_CACHE
  ∧ (([] : List Int).length < IDS_TO_CACHE → record [] 5 1 2 = [] ++ [5])
  ∧ (([] : List Int).length = IDS_TO_CACHE → (record [] 5 1 2).length = IDS_TO_CACHE)
  ∧ (([] : List Int).length = IDS_TO_CACHE → 1 % 10 = 0 →
      record [] 5 1 2 = ([] : List Int).set (2 % ([] : List Int).length) 5)
  ∧ (([] : List Int).length = IDS_TO_CACHE → ¬ 1 % 10 = 0 →
      record [] 5 1 2 = [])) :=
  ⟨by decide, claim3_key_cache_bounded [] 5 1 2 [(7, 0, 0)] (by decide)⟩

theorem bulkRecord_length_le (rids : List (Option Int)) (cache : List Int)
    (hc : cache.length ≤ IDS_TO_CACHE) :
    (bulkRecord rids cache).length ≤ IDS_TO_CACHE := by
  induction rids generalizing cache with
  | nil => simpa [bulkRecord] using hc
  | cons rid rest ih =>
    cases rid with
    | none => exact ih cache hc
    | some r =>
      show (bulkRecord rest (if cache.length < IDS_TO_CACHE then cache ++ [r] else cache)).length
          ≤ IDS_TO_CACHE
      refine ih _ ?_
      split
      · simp only [List.length_append, List.length_cons, List.length_nil]
        omega
      · exact hc

theorem bulkRecord_full_eq (rids : List (Option Int)) (cache : List Int)
    (hc : ¬ cache.length < IDS_TO_CACHE) :
    bulkRecord rids cache = cache := by
  induction rids with
  | nil => rfl
  | cons rid rest ih =>
    cases rid with
    | none => exact ih
    | some r =>
      show bulkRecord rest (if cache.length < IDS_TO_CACHE then cache ++ [r] else cache) = cache
      rw [if_neg hc]
      exact ih

theorem bulkRecord_below_eq (rids : List (Option Int)) (cache : List Int)
    (hc : cache.length + (rids.filterMap id).length ≤ IDS_TO_CACHE) :
    bulkRecord rids cache = cache ++ rids.filterMap id := by
  induction rids generalizing cache with
  | nil => simp [bulkRecord]
  | cons rid rest ih =>
    cases rid with
    | none =>
      have hfm : (none :: rest).filterMap (id : Option Int → Option Int)
          = rest.filterMap id := by simp
      show bulkRecord rest cache = cache ++ (none :: rest).filterMap id
      rw [hfm]
      exact ih cache (by rw [hfm] at hc; exact hc)
    | some r =>
      have hfm : (some r :: rest).filterMap (id : Option Int → Option Int)
          = r :: rest.filterMap id := by simp
      have hlen : ((some r :: rest).filterMap (id : Option Int → Option Int)).length
          = (rest.filterMap id).length + 1 := by rw [hfm]; rfl
      have hlt : cache.length < IDS_TO_CACHE := by omega
      show bulkRecord rest (if cache.length < IDS_TO_CACHE then cache ++ [r] else cache)
          = cache ++ (some r :: rest).filterMap id
      rw [if_pos hlt]
      have := ih (cache ++ [r]) (by
        simp only [List.length_append, List.length_cons, List.length_nil]
        omega)
      rw [this, hfm, List.append_assoc]
      rfl

/-- Claim C8 (amended): the bulk-insert path records each present key only
by appending while the cache is below capacity; once the cache is full it
leaves the cache unchanged — it has no replacement branch. -/
theorem claim8_bulk_append_only (cache : List Int) (rids : List (Option Int))
    (hc : cache.length ≤ IDS_TO_CACHE) :
    (bulkRecord rids cache).length ≤ IDS_TO_CACHE
  ∧ (cache.length = IDS_TO_CACHE → bulkRecord rids cache = cache)
  ∧ (cache.length + (rids.filterMap id).length ≤ IDS_TO_CACHE →
      bulkRecord rids cache = cache ++ rids.filterMap id) :=
  ⟨bulkRecord_length_le rids cache hc,
   fun h => bulkRecord_full_eq rids cache (by omega),
   fun h => bulkRecord_below_eq rids cache h⟩

theorem claim8_bulk_append_only_witness :
    ([3] : List Int).length ≤ IDS_TO_CACHE
  ∧ ((bulkRecord [some 4, none] [3]).length ≤ IDS_TO_CACHE
  ∧ (([3] : List Int).length = IDS_TO_CACHE → bulkRecord [some 4, none] [3] = [3])
  ∧ (([3] : List Int).length + ([some 4, none].filterMap (id : Option Int → Option Int)).length
        ≤ IDS_TO_CACHE →
      bulkRecord [some 4, none] [3] = [3] ++ [some 4, none].filterMap id)) :=
  ⟨by decide, claim8_bulk_append_only [3] [some 4, none] (by decide)⟩

/-- Counterexample to claim C8 as stated: on a full cache the bulk path
never overwrites any slot (for any draws, since it consults none), whereas
record on the same full cache with a successful 1-in-10 draw does overwrite:
the two policies differ at this input. -/
theorem claim8_bulk_no_replacement_cex :
    bulkRecord [some 42] (List.replicate IDS_TO_CACHE 0) = List.replicate IDS_TO_CACHE 0
  ∧ record (List.replicate IDS_TO_CACHE 0) 42 0 0 ≠ List.replicate IDS_TO_CACHE 0 := by
  have hlen : (List.replicate IDS_TO_CACHE (0 : Int)).length = IDS_TO_CACHE :=
    List.length_replicate ..
  constructor
  · exact bulkRecord_full_eq _ _ (by omega)
  · have hrec : record (List.replicate IDS_TO_CACHE 0) 42 0 0
        = (List.replicate IDS_TO_CACHE (0 : Int)).set 0 42 := by
      unfold record
      rw [if_neg (by omega), if_pos (by decide), hlen]
      rw [Nat.zero_mod]
    rw [hrec]
    have hK : IDS_TO_CACHE = 999 + 1 := by decide
    rw [hK, List.replicate_succ, List.set_cons_zero]
    intro hEq
    injection hEq with h1 h2
    exact absurd h1 (by decide)

/-- Claim C5 (amended): the schema loader performs no validation and never
fails: it maps every raw descriptor, in input order, to a SchemaField that
copies the raw fields verbatim, defaulting unique and skewed to false when
absent; missing name or type pass through as None. -/
theorem claim5_loader_no_validation (raw : List RawField) :
    List.Forall₂ (fun (item : RawField) (f : SchemaField) =>
      f.name = item.name ∧ f.ftype = item.type ∧ f.allowed_values = item.allowed_values
      ∧ f.unique = item.unique.getD false ∧ f.skewed = item.skewed.getD false
      ∧ f.unique_range = item.unique_range) raw (loadSchema raw) := by
  induction raw with
  | nil => exact List.Forall₂.nil
  | cons item rest ih => exact List.Forall₂.cons ⟨rfl, rfl, rfl, rfl, rfl, rfl⟩ ih

/-- Counterexample to claim C5 as stated: descriptors lacking name and type,
with an unsupported type, and with both unique and unique_range set are all
accepted — the loader returns a list instead of failing with a ConfigError
(no error path exists in _load_schema). -/
theorem claim5_loader_accepts_invalid_cex :
    loadSchema
      [⟨none, none, none, none, none, none⟩,
       ⟨some "ID", some "bogus", none, some true, none, some 5⟩] =
      [⟨none, none, none, false, false, none⟩,
       ⟨some "ID", some "bogus", none, true, false, some 5⟩] := rfl

/-- Claim C7: run_aggregation_pipeline issues exactly the four-stage
pipeline of the spec — group on the enumeration field STATUS counting into
total_records, rename the synthetic group key back to STATUS, remove the
synthetic key, sort by the count descending — against the secondary
collection. -/
theorem claim7_aggregation_pipeline_shape :
    runAggregationPipeline =
      (AggTarget.secondary, specAggPipeline "STATUS" "total_records") := rfl

/-- Claim C9: find_document is a no-op on an empty cache; on a non-empty
cache it returns a point-lookup key that is one of the cached keys (the
uniform choice being the oracle draw r reduced modulo the length); and
after exactly one record into an empty cache, the sampled key is that
exact key. -/
theorem claim9_find_by_key (cache : List Int) (r : Nat) (key : Int) (d10 slot : Nat)
    (hne : cache ≠ []) :
    find_document [] r = none
  ∧ (∃ k, find_document cache r = some k ∧ k ∈ cache)
  ∧ find_document (record [] key d10 slot) r = some key := by
  refine ⟨rfl, ?_, ?_⟩
  · have hpos : 0 < cache.length := List.length_pos.mpr hne
    have hi : r % cache.length < cache.length := Nat.mod_lt _ hpos
    refine ⟨cache.getD (r % cache.length) 0, ?_, ?_⟩
    · simp [find_document, List.isEmpty_eq_false.mpr hne]
    · rw [List.getD_eq_getElem?_getD, List.getElem?_eq_getElem hi]
      exact List.getElem_mem hi
  · have hrec : record [] key d10 slot = [key] := by
      simp [record, IDS_TO_CACHE]
    rw [hrec]
    simp [find_document, Nat.mod_one]

theorem claim9_find_by_key_witness :
    ([3, 4] : List Int) ≠ []
  ∧ (find_document [] 1 = none
  ∧ (∃ k, find_document [3, 4] 1 = some k ∧ k ∈ ([3, 4] : List Int))
  ∧ find_document (record [] 7 1 0) 1 = some 7) :=
  ⟨by decide, claim9_find_by_key [3, 4] 1 7 1 0 (by decide)⟩


/-- Claim C4 (amended): for a field whose type is none of int, string, date
and whose allowed_values is not truthy, _gen_value raises nothing and
returns None (the final fall-through), leaving the state unchanged. -/
theorem claim4_unrecognized_type_returns_none (f : SchemaField) (st : GenState) (r : Draws)
    (hav : truthyList f.allowed_values = false)
    (h1 : f.ftype ≠ some "int") (h2 : f.ftype ≠ some "string") (h3 : f.ftype ≠ some "date") :
    genValue f st r = .ok (Value.vNone, st) := by
  simp [genValue, hav, h1, h2, h3]

theorem claim4_unrecognized_type_returns_none_witness :
    truthyList bfField.allowed_values = false
  ∧ bfField.ftype ≠ some "int" ∧ bfField.ftype ≠ some "string" ∧ bfField.ftype ≠ some "date"
  ∧ genValue bfField (initState [bfField] 1) defaultRand
      = .ok (Value.vNone, initState [bfField] 1) :=
  ⟨rfl, by decide, by decide, by decide,
   claim4_unrecognized_type_returns_none bfField (initState [bfField] 1) defaultRand rfl
     (by decide) (by decide) (by decide)⟩

/-- Counterexample to claim C4 as stated: on an unrecognized type ("bool")
the generator does return a value — the Ok result None — rather than
failing with a TypeError-class error. -/
theorem claim4_no_type_error_cex :
    genValue bfField (initState [bfField] 1) defaultRand
      = .ok (Value.vNone, initState [bfField] 1)
  ∧ genVal1 bfField (initState [bfField] 1) defaultRand = some Value.vNone :=
  ⟨rfl, by decide⟩

/-- Claim C10: when allowed_values is present but empty it is not truthy,
so _gen_value behaves exactly as if allowed_values were unset and falls
through to the type-based policy. -/
theorem claim10_empty_allowed_falls_through (f : SchemaField) (st : GenState) (r : Draws)
    (h : f.allowed_values = some []) :
    genValue f st r =
      genValue ⟨f.name, f.ftype, none, f.unique, f.skewed, f.unique_range⟩ st r := by
  simp [genValue, h, truthyList]

theorem claim10_empty_allowed_falls_through_witness :
    eaField.allowed_values = some []
  ∧ genValue eaField (initState [eaField] 2) defaultRand =
      genValue ⟨eaField.name, eaField.ftype, none, eaField.unique, eaField.skewed,
        eaField.unique_range⟩ (initState [eaField] 2) defaultRand :=
  ⟨rfl, claim10_empty_allowed_falls_through eaField (initState [eaField] 2) defaultRand rfl⟩

/-- Claim C6 (amended): whenever allowed_values is set to a non-empty list,
every value _gen_value returns is an element of that list, whatever the
field's type, unique, skewed or unique_range settings, and the state is
unchanged. -/
theorem claim6_allowed_values_membership (f : SchemaField) (st : GenState) (r : Draws)
    (l : List Value) (hl : f.allowed_values = some l) (hne : l ≠ []) :
    ∃ v, genValue f st r = .ok (v, st) ∧ v ∈ l := by
  have hpos : 0 < l.length := List.length_pos.mpr hne
  have ht : truthyList (some l) = true := by
    cases l with
    | nil => exact absurd rfl hne
    | cons x xs => rfl
  refine ⟨pyChoice l r.choiceIdx, ?_, ?_⟩
  · simp [genValue, hl, ht]
  · unfold pyChoice
    have hi : r.choiceIdx % l.length < l.length := Nat.mod_lt _ hpos
    rw [List.getD_eq_getElem?_getD, List.getElem?_eq_getElem hi]
    exact List.getElem_mem hi

theorem claim6_allowed_values_membership_witness :
    avField.allowed_values = some [Value.vStr "A", Value.vStr "B"]
  ∧ ([Value.vStr "A", Value.vStr "B"] : List Value) ≠ []
  ∧ ∃ v, genValue avField (initState [avField] 4) defaultRand
        = .ok (v, initState [avField] 4)
      ∧ v ∈ [Value.vStr "A", Value.vStr "B"] :=
  ⟨rfl, by decide,
   claim6_allowed_values_membership avField (initState [avField] 4) defaultRand
     [Value.vStr "A", Value.vStr "B"] rfl (by decide)⟩

/-- Counterexample to claim C6 as stated: with allowed_values set to the
empty list the generator falls through to the int policy and returns 0,
which is not an element of the (empty) allowed_values. -/
theorem claim6_empty_allowed_values_cex :
    eaField.allowed_values = some []
  ∧ genVal1 eaField (initState [eaField] 2) defaultRand = some (Value.vInt 0)
  ∧ Value.vInt 0 ∉ ([] : List Value) :=
  ⟨rfl, by decide, by decide⟩

theorem genValue_unique (f : SchemaField) (st : GenState) (r : Draws) (c : Nat)
    (hav : truthyList f.allowed_values = false) (hty : f.ftype = some "int")
    (hu : f.unique = true) (hc : st.counters f.name = some c) :
    genValue f st r = .ok (Value.vInt ((st.seed * 1000000 + (c + 1) : Nat) : Int),
      { st with counters := updMap st.counters f.name (some (c + 1)) }) := by
  simp [genValue, hav, hty, hu, hc]

theorem range_map_shift (s c n : Nat) :
    Value.vInt ((s * 1000000 + (c + 1) : Nat) : Int) ::
      (List.range n).map (fun i => Value.vInt ((s * 1000000 + (c + 1 + i + 1) : Nat) : Int))
    = (List.range (n + 1)).map
        (fun i => Value.vInt ((s * 1000000 + (c + i + 1) : Nat) : Int)) := by
  rw [List.range_succ_eq_map, List.map_cons, List.map_map]
  refine congrArg₂ List.cons ?_ ?_
  · norm_num
  · refine List.map_congr_left ?_
    intro i hi
    have h : c + 1 + i + 1 = c + (i + 1) + 1 := by omega
    simp [Function.comp, h]

theorem genSeq_unique (f : SchemaField)
    (hav : truthyList f.allowed_values = false) (hty : f.ftype = some "int")
    (hu : f.unique = true) :
    ∀ (n : Nat) (st : GenState) (rs : Nat → Draws) (c : Nat),
      st.counters f.name = some c →
      ∃ st2, genSeq f st rs n =
          .ok ((List.range n).map
            (fun i => Value.vInt ((st.seed * 1000000 + (c + i + 1) : Nat) : Int)), st2)
        ∧ st2.counters f.name = some (c + n) ∧ st2.seed = st.seed := by
  intro n
  induction n with
  | zero =>
    intro st rs c hc
    exact ⟨st, by simp [genSeq], by simpa using hc, rfl⟩
  | succ n ih =>
    intro st rs c hc
    have hstep := genValue_unique f st (rs 0) c hav hty hu hc
    obtain ⟨st2, h1, h2, h3⟩ :=
      ih { st with counters := updMap st.counters f.name (some (c + 1)) }
        (fun i => rs (i + 1)) (c + 1) (by simp [updMap])
    refine ⟨st2, ?_, ?_, by simpa using h3⟩
    · simp only [genSeq, hstep, h1]
      rw [← range_map_shift st.seed c n]
    · have h : c + 1 + n = c + (n + 1) := by omega
      rw [← h]
      exact h2

/-- Claim C1 (amended): for every int-typed field with unique = true whose
allowed_values is unset or empty, starting from a state whose counter for
the field is 0 (as __init__ creates it), N generator calls succeed and
yield N values that are pairwise distinct and strictly increasing, the
counter ends at N, and the first value is seed * 1_000_000 + 1. -/
theorem claim1_unique_counter_sequence (f : SchemaField) (st : GenState)
    (rs : Nat → Draws) (N : Nat)
    (hav : truthyList f.allowed_values = false) (hty : f.ftype = some "int")
    (hu : f.unique = true) (hc : st.counters f.name = some 0) :
    ∃ vals st2, genSeq f st rs N = .ok (vals, st2)
      ∧ vals.length = N
      ∧ vals.Nodup
      ∧ vals.Pairwise vLt
      ∧ st2.counters f.name = some N
      ∧ (0 < N → vals.head? = some (Value.vInt ((st.seed * 1000000 + 1 : Nat) : Int))) := by
  obtain ⟨st2, h1, h2, h3⟩ := genSeq_unique f hav hty hu N st rs 0 hc
  refine ⟨_, st2, h1, by simp, ?_, ?_, by simpa using h2, ?_⟩
  · refine List.Nodup.map ?_ (List.nodup_range N)
    intro a b hab
    have hnat := Nat.cast_inj.mp (Value.vInt.inj hab)
    omega
  · refine (List.pairwise_map).mpr ((List.pairwise_lt_range N).imp ?_)
    intro a b hab
    simp only [vLt]
    have h : st.seed * 1000000 + (0 + a + 1) < st.seed * 1000000 + (0 + b + 1) := by omega
    exact_mod_cast h
  · intro hN
    obtain ⟨m, rfl⟩ : ∃ m, N = m + 1 := ⟨N - 1, by omega⟩
    rw [List.range_succ_eq_map, List.map_cons, List.head?_cons]

theorem claim1_unique_counter_sequence_witness :
    truthyList ufField.allowed_values = false
  ∧ (initState [ufField] 3).counters ufField.name = some 0
  ∧ ∃ vals st2,
      genSeq ufField (initState [ufField] 3) (fun _ => defaultRand) 3 = .ok (vals, st2)
      ∧ vals.length = 3
      ∧ vals.Nodup
      ∧ vals.Pairwise vLt
      ∧ st2.counters ufField.name = some 3
      ∧ (0 < 3 → vals.head? =
          some (Value.vInt (((initState [ufField] 3).seed * 1000000 + 1 : Nat) : Int))) :=
  ⟨rfl, by decide,
   claim1_unique_counter_sequence ufField (initState [ufField] 3) (fun _ => defaultRand) 3
     rfl rfl rfl (by decide)⟩

/-- Counterexample to claim C1 as stated: an int field with unique = true
but a non-empty allowed_values list draws from the enumeration instead —
the call leaves the counter at 0 and returns 7, not seed * 1_000_000 + 1
(here seed = 1, so that would be 1000001). -/
theorem claim1_allowed_values_precedence_cex :
    genVal1 auField (initState [auField] 1) defaultRand = some (Value.vInt 7)
  ∧ genCounterAfter auField (initState [auField] 1) defaultRand = some (some 0)
  ∧ Value.vInt 7 ≠ Value.vInt ((1 * 1000000 + 1 : Nat) : Int) :=
  ⟨by decide, by decide, by decide⟩

theorem genValue_pool (f : SchemaField) (st : GenState) (r : Draws) (x : Int) (xs : List Int)
    (hav : truthyList f.allowed_values = false) (hty : f.ftype = some "int")
    (hu : f.unique = false) (hur : truthyInt f.unique_range = true)
    (hp : st.pools f.name = some (x :: xs)) :
    genValue f st r = .ok (Value.vInt x,
      { st with pools := updMap st.pools f.name (some (xs ++ [x])) }) := by
  simp [genValue, hav, hty, hu, hur, hp]

theorem genSeq_pool (f : SchemaField)
    (hav : truthyList f.allowed_values = false) (hty : f.ftype = some "int")
    (hu : f.unique = false) (hur : truthyInt f.unique_range = true) :
    ∀ (n : Nat) (p : List Int) (st : GenState) (rs : Nat → Draws),
      st.pools f.name = some p → p ≠ [] → n ≤ p.length →
      ∃ st2, genSeq f st rs n = .ok ((p.take n).map Value.vInt, st2)
        ∧ st2.pools f.name = some (p.drop n ++ p.take n)
        ∧ st2.seed = st.seed ∧ st2.counters = st.counters := by
  intro n
  induction n with
  | zero =>
    intro p st rs hp hne hle
    exact ⟨st, by simp [genSeq], by simpa using hp, rfl, rfl⟩
  | succ n ih =>
    intro p st rs hp hne hle
    obtain ⟨x, xs, rfl⟩ : ∃ x xs, p = x :: xs := by
      cases p with
      | nil => exact absurd rfl hne
      | cons a as => exact ⟨a, as, rfl⟩
    have hxs : n ≤ xs.length := by simp at hle; omega
    have hstep := genValue_pool f st (rs 0) x xs hav hty hu hur hp
    obtain ⟨st2, h1, h2, h3, h4⟩ :=
      ih (xs ++ [x]) { st with pools := updMap st.pools f.name (some (xs ++ [x])) }
        (fun i => rs (i + 1)) (by simp [updMap]) (by simp)
        (by simp only [List.length_append, List.length_cons, List.length_nil]; omega)
    refine ⟨st2, ?_, ?_, by simpa using h3, by simpa using h4⟩
    · simp only [genSeq, hstep, h1]
      rw [List.take_succ_cons, List.map_cons, List.take_append_of_le_length hxs]
    · rw [List.drop_succ_cons, List.take_succ_cons]
      rw [List.drop_append_of_le_length hxs, List.take_append_of_le_length hxs] at h2
      rw [List.append_assoc, List.singleton_append] at h2
      exact h2

theorem rotateRight_length {α : Type} (l : List α) (k : Nat) :
    (rotateRight l k).length = l.length := by
  simp only [rotateRight, List.length_append, List.length_drop, List.length_take]
  omega

theorem rotateRight_perm {α : Type} (l : List α) (k : Nat) :
    (rotateRight l k).Perm l := by
  unfold rotateRight
  refine List.Perm.trans List.perm_append_comm ?_
  rw [List.take_append_drop]

theorem intRange_length (R : Int) : (intRange R).length = R.toNat := by
  simp only [intRange, List.length_map, List.length_range]

theorem intRange_nodup (R : Int) : (intRange R).Nodup := by
  unfold intRange
  refine List.Nodup.map ?_ (List.nodup_range R.toNat)
  intro a b h
  simp only at h
  exact_mod_cast h

theorem intRange_mem (R : Int) (hR : 0 < R) (v : Int) :
    v ∈ intRange R ↔ 0 ≤ v ∧ v < R := by
  simp only [intRange, List.mem_map, List.mem_range]
  constructor
  · rintro ⟨n, hn, rfl⟩
    exact ⟨Int.ofNat_nonneg n, Int.lt_toNat.mp hn⟩
  · rintro ⟨h0, h1⟩
    refine ⟨v.toNat, ?_, Int.toNat_of_nonneg h0⟩
    exact (Int.toNat_lt_toNat hR).mpr h1

theorem initState_pool (name : Option String) (sk : Bool) (seed : Nat) (R : Int)
    (hR : R ≠ 0) :
    (initState [⟨name, some "int", none, false, sk, some R⟩] seed).pools name
      = some (rotateRight (intRange R) (seed % R.toNat))
  ∧ (initState [⟨name, some "int", none, false, sk, some R⟩] seed).seed = seed := by
  constructor
  · simp [initState, initFold, truthyInt, updMap, hR]
  · simp [initState, initFold, truthyInt, updMap, hR]

/-- Claim C2 (amended): for an int-typed field with unique_range = R > 0,
unique = false and no allowed_values, the freshly constructed generator's
pool is [0, R) rotated right by seed mod R; the first R generated values
list that rotated pool in order — a permutation of [0, R) with no repeats —
the pool is back to its initial content after the R calls, and the
(R+1)-th value equals the first. -/
theorem claim2_unique_range_cycle (name : Option String) (sk : Bool) (seed : Nat)
    (R : Int) (rs : Nat → Draws) (hR : 0 < R) :
    ∃ vals st2 st3,
      genSeq ⟨name, some "int", none, false, sk, some R⟩
          (initState [⟨name, some "int", none, false, sk, some R⟩] seed) rs R.toNat
        = .ok (vals, st2)
      ∧ vals = (rotateRight (intRange R) (seed % R.toNat)).map Value.vInt
      ∧ vals.length = R.toNat
      ∧ vals.Nodup
      ∧ (∀ v : Int, Value.vInt v ∈ vals ↔ 0 ≤ v ∧ v < R)
      ∧ st2.pools name =
          (initState [⟨name, some "int", none, false, sk, some R⟩] seed).pools name
      ∧ genSeq ⟨name, some "int", none, false, sk, some R⟩
          (initState [⟨name, some "int", none, false, sk, some R⟩] seed) rs (R.toNat + 1)
        = .ok (vals ++ [vals.getD 0 (Value.vInt 0)], st3) := by
  have hRne : R ≠ 0 := by omega
  obtain ⟨hp, hseed⟩ := initState_pool name sk seed R hRne
  have hur : truthyInt (some R) = true := by
    simp only [truthyInt, decide_eq_true_eq]
    exact hRne
  have hplen : (rotateRight (intRange R) (seed % R.toNat)).length = R.toNat := by
    rw [rotateRight_length, intRange_length]
  have hRpos : 0 < R.toNat := by
    have h := (Int.toNat_lt_toNat hR).mpr hR
    simpa using h
  have hpne : rotateRight (intRange R) (seed % R.toNat) ≠ [] :=
    List.length_pos.mp (by rw [hplen]; exact hRpos)
  obtain ⟨st2, hA1, hA2, hA3, hA4⟩ :=
    genSeq_pool ⟨name, some "int", none, false, sk, some R⟩ rfl rfl rfl hur
      R.toNat (rotateRight (intRange R) (seed % R.toNat))
      (initState [⟨name, some "int", none, false, sk, some R⟩] seed) rs hp hpne hplen.ge
  have htake : (rotateRight (intRange R) (seed % R.toNat)).take R.toNat
      = rotateRight (intRange R) (seed % R.toNat) :=
    List.take_of_length_le hplen.le
  rw [htake] at hA1
  have hperm : (rotateRight (intRange R) (seed % R.toNat)).Perm (intRange R) :=
    rotateRight_perm (intRange R) (seed % R.toNat)
  obtain ⟨x, xs, hxxs⟩ : ∃ x xs, rotateRight (intRange R) (seed % R.toNat) = x :: xs := by
    cases hq : rotateRight (intRange R) (seed % R.toNat) with
    | nil => exact absurd hq hpne
    | cons a as => exact ⟨a, as, rfl⟩
  have hstep := genValue_pool ⟨name, some "int", none, false, sk, some R⟩
    (initState [⟨name, some "int", none, false, sk, some R⟩] seed) (rs 0) x xs
    rfl rfl rfl hur (by rw [hp, hxxs])
  have hlen2 : (xs ++ [x]).length = R.toNat := by
    rw [hxxs] at hplen
    simpa using hplen
  obtain ⟨st3, hB1, hB2, hB3, hB4⟩ :=
    genSeq_pool ⟨name, some "int", none, false, sk, some R⟩ rfl rfl rfl hur
      R.toNat (xs ++ [x])
      { initState [⟨name, some "int", none, false, sk, some R⟩] seed with
          pools := updMap (initState [⟨name, some "int", none, false, sk, some R⟩] seed).pools
            name (some (xs ++ [x])) }
      (fun i => rs (i + 1)) (by simp [updMap]) (by simp) hlen2.ge
  have htake2 : (xs ++ [x]).take R.toNat = xs ++ [x] :=
    List.take_of_length_le hlen2.le
  rw [htake2] at hB1
  dsimp only at hstep hB1 hA2
  refine ⟨(rotateRight (intRange R) (seed % R.toNat)).map Value.vInt, st2, st3,
    hA1, rfl, ?_, ?_, ?_, ?_, ?_⟩
  · rw [List.length_map, hplen]
  · refine List.Nodup.map (fun a b hab => Value.vInt.inj hab) ?_
    exact (hperm.nodup_iff).mpr (intRange_nodup R)
  · intro v
    constructor
    · intro hmem
      obtain ⟨a, ha, hav2⟩ := List.mem_map.mp hmem
      have hva : a = v := Value.vInt.inj hav2
      rw [← hva]
      exact (intRange_mem R hR a).mp (hperm.mem_iff.mp ha)
    · intro hv
      exact List.mem_map.mpr ⟨v, hperm.mem_iff.mpr ((intRange_mem R hR v).mpr hv), rfl⟩
  · rw [List.drop_eq_nil_of_le hplen.le, htake, List.nil_append] at hA2
    exact hA2.trans hp.symm
  · simp only [genSeq, hstep, hB1]
    rw [hxxs]
    simp only [List.map_cons, List.getD_cons_zero, List.map_append, List.map_nil,
      List.cons_append, List.nil_append]

theorem claim2_unique_range_cycle_witness :
    (0 : Int) < 3
  ∧ ∃ vals st2 st3,
      genSeq ⟨some "K", some "int", none, false, false, some 3⟩
          (initState [⟨some "K", some "int", none, false, false, some 3⟩] 5)
          (fun _ => defaultRand) (3 : Int).toNat
        = .ok (vals, st2)
      ∧ vals = (rotateRight (intRange 3) (5 % (3 : Int).toNat)).map Value.vInt
      ∧ vals.length = (3 : Int).toNat
      ∧ vals.Nodup
      ∧ (∀ v : Int, Value.vInt v ∈ vals ↔ 0 ≤ v ∧ v < 3)
      ∧ st2.pools (some "K") =
          (initState [⟨some "K", some "int", none, false, false, some 3⟩] 5).pools (some "K")
      ∧ genSeq ⟨some "K", some "int", none, false, false, some 3⟩
          (initState [⟨some "K", some "int", none, false, false, some 3⟩] 5)
          (fun _ => defaultRand) ((3 : Int).toNat + 1)
        = .ok (vals ++ [vals.getD 0 (Value.vInt 0)], st3) :=
  ⟨by decide,
   claim2_unique_range_cycle (some "K") false 5 3 (fun _ => defaultRand) (by decide)⟩

/-- Counterexample to claim C2 as stated: a field carrying uniqueRange = 3
(with no allowedValues) that also has unique = true takes the
unique-counter branch of _gen_value, so although its pool is initialized
to [2, 0, 1] ([0, 3) rotated by seed mod 3 with seed 1), the first call
returns 1000001 = seed * 1_000_000 + 1, which is not even in [0, 3): the
first R values are not a permutation of [0, R). -/
theorem claim2_unique_precedence_cex :
    (initState [urField] 1).pools (some "F") = some [2, 0, 1]
  ∧ genVal1 urField (initState [urField] 1) defaultRand = some (Value.vInt 1000001)
  ∧ ¬ ((1000001 : Int) < 3) :=
  ⟨by decide, by decide, by decide⟩
